import Mathlib

/-!
# Verification of the MMKV storage-engine core (`src/Core/MMKV.cpp`)

A shallow embedding of the key–value store's orchestration layer:
the scalar codec, the in-memory index and its `set`/`get`/`remove`
operations, crypt-key management, file-path derivation, CRC checking and
the error-handler dispatch.  Byte strings are modelled as `List Nat`
(each element a byte value), machine integers as `Nat`/`Int` with
explicit `% 2^w` where the code truncates, and out-parameters /
fallible reads as `Option`.  External collaborators that are not part
of the excerpted source (CRC32, openssl MD5) are taken as parameters of
the functions that call them.
-/

namespace MMKVCore

/-! ## Scalar codec (protobuf-style varint)

Modelled from the spec: the protobuf-compatible scalar codecs
(`CodedOutputData` / `CodedInputData`, spec §4.6) are external to the
excerpted source.  Values are variable-length (base-128) encoded;
`int32`/`int64` encode negative values as the 64-bit two's-complement
varint; `float`/`double` are fixed-width little-endian and are modelled
by their raw bit patterns. -/

/-- Modelled from the spec: base-128 varint encoding of a natural number
(`CodedOutputData::writeRawVarint64`). -/
def varintEncode (n : Nat) : List Nat :=
  if n < 128 then [n] else (n % 128 + 128) :: varintEncode (n / 128)
decreasing_by exact Nat.div_lt_self (by omega) (by omega)

/-- Modelled from the spec: base-128 varint decoding
(`CodedInputData::readRawVarint64`); returns the value and the rest of
the input, or `none` when the input is exhausted mid-varint. -/
def varintDecode : List Nat → Option (Nat × List Nat)
  | [] => none
  | b :: rest =>
    if b < 128 then some (b, rest)
    else
      match varintDecode rest with
      | some (n, r) => some (n * 128 + (b - 128), r)
      | none => none

theorem varintEncode_ne_nil (n : Nat) : varintEncode n ≠ [] := by
  rw [varintEncode]
  split <;> simp

theorem varintDecode_append (n : Nat) (rest : List Nat) :
    varintDecode (varintEncode n ++ rest) = some (n, rest) := by
  induction n using Nat.strong_induction_on with
  | _ n ih =>
    rw [varintEncode]
    by_cases h : n < 128
    · simp [h, varintDecode]
    · have hdiv : n / 128 < n := Nat.div_lt_self (by omega) (by omega)
      simp only [if_neg h, List.cons_append, varintDecode]
      rw [if_neg (by omega)]
      rw [ih (n / 128) hdiv]
      show some (n / 128 * 128 + (n % 128 + 128 - 128), rest) = some (n, rest)
      have hval : n / 128 * 128 + (n % 128 + 128 - 128) = n := by omega
      rw [hval]

/-- Interpret the low 32 bits of a natural number as a signed `int32`. -/
def toInt32 (m : Nat) : Int :=
  if m % 2 ^ 32 < 2 ^ 31 then ((m % 2 ^ 32 : Nat) : Int)
  else ((m % 2 ^ 32 : Nat) : Int) - 2 ^ 32

/-- Interpret the low 64 bits of a natural number as a signed `int64`. -/
def toInt64 (m : Nat) : Int :=
  if m % 2 ^ 64 < 2 ^ 63 then ((m % 2 ^ 64 : Nat) : Int)
  else ((m % 2 ^ 64 : Nat) : Int) - 2 ^ 64

/-- Modelled from the spec: `CodedOutputData::writeInt32` — non-negative
values are encoded directly, negative values as their 64-bit
two's-complement varint. -/
def encodeInt32 (v : Int) : List Nat :=
  if 0 ≤ v then varintEncode v.toNat else varintEncode (v + 2 ^ 64).toNat

/-- Modelled from the spec: `CodedOutputData::writeInt64`. -/
def encodeInt64 (v : Int) : List Nat :=
  if 0 ≤ v then varintEncode v.toNat else varintEncode (v + 2 ^ 64).toNat

/-- Modelled from the spec: `CodedOutputData::writeUInt32`. -/
def encodeUInt32 (v : Nat) : List Nat := varintEncode v

/-- Modelled from the spec: `CodedOutputData::writeUInt64`. -/
def encodeUInt64 (v : Nat) : List Nat := varintEncode v

/-- Modelled from the spec: `CodedOutputData::writeBool` writes one raw
byte, 1 for true and 0 for false. -/
def encodeBool (b : Bool) : List Nat := [if b then 1 else 0]

/-- Modelled from the spec: `CodedOutputData::writeFloat` writes the 4
IEEE bytes little-endian; the value is modelled by its 32-bit pattern. -/
def encodeFixed32 (bits : Nat) : List Nat :=
  [bits % 256, bits / 256 % 256, bits / 2 ^ 16 % 256, bits / 2 ^ 24 % 256]

/-- Modelled from the spec: `CodedOutputData::writeDouble` writes the 8
IEEE bytes little-endian; the value is modelled by its 64-bit pattern. -/
def encodeFixed64 (bits : Nat) : List Nat :=
  [bits % 256, bits / 256 % 256, bits / 2 ^ 16 % 256, bits / 2 ^ 24 % 256,
   bits / 2 ^ 32 % 256, bits / 2 ^ 40 % 256, bits / 2 ^ 48 % 256, bits / 2 ^ 56 % 256]

/-- Modelled from the spec: `CodedInputData::readInt32` reads a varint
and truncates it to 32 bits, interpreted signed. -/
def readInt32 (data : List Nat) : Option Int :=
  match varintDecode data with
  | some (n, _) => some (toInt32 n)
  | none => none

/-- Modelled from the spec: `CodedInputData::readInt64`. -/
def readInt64 (data : List Nat) : Option Int :=
  match varintDecode data with
  | some (n, _) => some (toInt64 n)
  | none => none

/-- Modelled from the spec: `CodedInputData::readUInt32` reads a varint
and keeps the low 32 bits. -/
def readUInt32 (data : List Nat) : Option Nat :=
  match varintDecode data with
  | some (n, _) => some (n % 2 ^ 32)
  | none => none

/-- Modelled from the spec: `CodedInputData::readUInt64`. -/
def readUInt64 (data : List Nat) : Option Nat :=
  match varintDecode data with
  | some (n, _) => some (n % 2 ^ 64)
  | none => none

/-- Modelled from the spec: `CodedInputData::readBool` is
`readRawVarint32() != 0`. -/
def readBool (data : List Nat) : Option Bool :=
  match varintDecode data with
  | some (n, _) => some (decide (n % 2 ^ 32 ≠ 0))
  | none => none

/-- Modelled from the spec: `CodedInputData::readFloat` reads 4 raw
little-endian bytes (failing when fewer remain). -/
def readFixed32 (data : List Nat) : Option Nat :=
  match data with
  | b0 :: b1 :: b2 :: b3 :: _ =>
    some (b0 % 256 + b1 % 256 * 256 + b2 % 256 * 2 ^ 16 + b3 % 256 * 2 ^ 24)
  | _ => none

/-- Modelled from the spec: `CodedInputData::readDouble` reads 8 raw
little-endian bytes. -/
def readFixed64 (data : List Nat) : Option Nat :=
  match data with
  | b0 :: b1 :: b2 :: b3 :: b4 :: b5 :: b6 :: b7 :: _ =>
    some (b0 % 256 + b1 % 256 * 256 + b2 % 256 * 2 ^ 16 + b3 % 256 * 2 ^ 24 +
      b4 % 256 * 2 ^ 32 + b5 % 256 * 2 ^ 40 + b6 % 256 * 2 ^ 48 + b7 % 256 * 2 ^ 56)
  | _ => none

/-- Modelled from the spec: `CodedInputData::readString` /
`MiniPBCoder` length-prefixed bytes — a varint length followed by that
many bytes; fails when fewer bytes remain. -/
def readLengthPrefixed (data : List Nat) : Option (List Nat) :=
  match varintDecode data with
  | some (n, rest) => if n ≤ rest.length then some (rest.take n) else none
  | none => none

theorem readInt32_encodeInt32 (v : Int) (h1 : -2 ^ 31 ≤ v) (h2 : v < 2 ^ 31) :
    readInt32 (encodeInt32 v) = some v := by
  unfold readInt32 encodeInt32
  by_cases h : 0 ≤ v
  · rw [if_pos h]
    have := varintDecode_append v.toNat []
    rw [List.append_nil] at this
    rw [this]
    unfold toInt32
    have hv : v.toNat < 2 ^ 31 := by omega
    have hmod : v.toNat % 2 ^ 32 = v.toNat := Nat.mod_eq_of_lt (by omega)
    simp only [hmod]
    rw [if_pos hv]
    simp [Int.toNat_of_nonneg h]
  · rw [if_neg h]
    have := varintDecode_append (v + 2 ^ 64).toNat []
    rw [List.append_nil] at this
    rw [this]
    unfold toInt32
    simp only []
    have hv0 : (0 : Int) ≤ v + 2 ^ 64 := by omega
    have hnat : ((v + 2 ^ 64).toNat : Int) = v + 2 ^ 64 := Int.toNat_of_nonneg hv0
    -- the low 32 bits are 2^32 + v (a value in [2^31, 2^32))
    have hr : (v + 2 ^ 64).toNat % 2 ^ 32 = (v + 2 ^ 32).toNat := by
      have h1' : (v + 2 ^ 64).toNat = (v + 2 ^ 32).toNat + (2 ^ 64 - 2 ^ 32) := by omega
      rw [h1']
      have : (2 ^ 64 - 2 ^ 32 : Nat) = 2 ^ 32 * (2 ^ 32 - 1) := by norm_num
      rw [this, Nat.add_mul_mod_self_left]
      exact Nat.mod_eq_of_lt (by omega)
    rw [hr]
    have hge : ¬ (v + 2 ^ 32).toNat < 2 ^ 31 := by omega
    rw [if_neg hge]
    have h32 : (((v + 2 ^ 32).toNat : Int)) = v + 2 ^ 32 := Int.toNat_of_nonneg (by omega)
    rw [h32]
    congr 1
    ring

theorem readInt64_encodeInt64 (v : Int) (h1 : -2 ^ 63 ≤ v) (h2 : v < 2 ^ 63) :
    readInt64 (encodeInt64 v) = some v := by
  unfold readInt64 encodeInt64
  by_cases h : 0 ≤ v
  · rw [if_pos h]
    have := varintDecode_append v.toNat []
    rw [List.append_nil] at this
    rw [this]
    unfold toInt64
    have hv : v.toNat < 2 ^ 63 := by omega
    have hmod : v.toNat % 2 ^ 64 = v.toNat := Nat.mod_eq_of_lt (by omega)
    simp only [hmod]
    rw [if_pos hv]
    simp [Int.toNat_of_nonneg h]
  · rw [if_neg h]
    have := varintDecode_append (v + 2 ^ 64).toNat []
    rw [List.append_nil] at this
    rw [this]
    unfold toInt64
    simp only []
    have hv0 : (0 : Int) ≤ v + 2 ^ 64 := by omega
    have hlt : (v + 2 ^ 64).toNat < 2 ^ 64 := by omega
    have hr : (v + 2 ^ 64).toNat % 2 ^ 64 = (v + 2 ^ 64).toNat := Nat.mod_eq_of_lt hlt
    rw [hr]
    have hge : ¬ (v + 2 ^ 64).toNat < 2 ^ 63 := by omega
    rw [if_neg hge]
    have h64 : (((v + 2 ^ 64).toNat : Int)) = v + 2 ^ 64 := Int.toNat_of_nonneg hv0
    rw [h64]
    congr 1
    ring

theorem readUInt32_encodeUInt32 (v : Nat) (h : v < 2 ^ 32) :
    readUInt32 (encodeUInt32 v) = some v := by
  unfold readUInt32 encodeUInt32
  have := varintDecode_append v []
  rw [List.append_nil] at this
  rw [this]
  simp only [Option.some.injEq]
  omega

theorem readUInt64_encodeUInt64 (v : Nat) (h : v < 2 ^ 64) :
    readUInt64 (encodeUInt64 v) = some v := by
  unfold readUInt64 encodeUInt64
  have := varintDecode_append v []
  rw [List.append_nil] at this
  rw [this]
  simp only [Option.some.injEq]
  omega

theorem readBool_encodeBool (b : Bool) : readBool (encodeBool b) = some b := by
  cases b <;> simp [readBool, encodeBool, varintDecode]

theorem readFixed32_encodeFixed32 (bits : Nat) (h : bits < 2 ^ 32) :
    readFixed32 (encodeFixed32 bits) = some bits := by
  unfold readFixed32 encodeFixed32
  simp only [Option.some.injEq]
  omega

theorem readFixed64_encodeFixed64 (bits : Nat) (h : bits < 2 ^ 64) :
    readFixed64 (encodeFixed64 bits) = some bits := by
  unfold readFixed64 encodeFixed64
  simp only [Option.some.injEq]
  omega

theorem readLengthPrefixed_prefix (s rest : List Nat) :
    readLengthPrefixed (varintEncode s.length ++ s ++ rest) = some s := by
  unfold readLengthPrefixed
  rw [List.append_assoc, varintDecode_append]
  show (if s.length ≤ (s ++ rest).length then some ((s ++ rest).take s.length) else none) =
    some s
  rw [if_pos (by simp), List.take_left]

/-! ## Store state and the append path

The instance state visible to the orchestration layer: the in-memory
index (`m_dic`, an association list from key bytes to stored value
bytes), the data-file payload, `m_actualSize`, the running CRC digest
and the meta file.  The CRC32 routine lives outside the excerpted
source, so every state-mutating operation takes it as a parameter
`crc32 : Nat → List Nat → Nat` (seed, bytes ↦ digest). -/

/-- `isKeyEmpty(key)` for `std::string` keys: `key.empty()`. -/
def isKeyEmpty (key : List Nat) : Bool := key.isEmpty

/-- Meta file fields relevant to the engine (`MMKVMetaInfo`). -/
structure MMKVMetaInfo where
  m_crcDigest : Nat
  m_actualSize : Nat
  m_sequence : Nat
  deriving Repr, DecidableEq

/-- The storage-engine state of one instance. -/
structure MMKVState where
  m_dic : List (List Nat × List Nat)
  payload : List Nat
  m_actualSize : Nat
  m_crcDigest : Nat
  m_metaInfo : MMKVMetaInfo
  m_hasFullWriteback : Bool
  deriving Repr, DecidableEq

/-- Lookup in the association-list index (`m_dic->find`). -/
def lookupAssoc (key : List Nat) : List (List Nat × List Nat) → Option (List Nat)
  | [] => none
  | (k, v) :: rest => if k = key then some v else lookupAssoc key rest

/-- Erase every entry for `key` (`m_dic->erase`). -/
def eraseAssoc (key : List Nat) (dic : List (List Nat × List Nat)) :
    List (List Nat × List Nat) :=
  dic.filter (fun p => p.1 ≠ key)

/-- Insert-or-overwrite the entry for `key` (`(*m_dic)[key] = …`). -/
def updateAssoc (key value : List Nat) (dic : List (List Nat × List Nat)) :
    List (List Nat × List Nat) :=
  (key, value) :: eraseAssoc key dic

/-- Modelled from the spec (§3): one log record is
`varint(keyLen) ‖ key ‖ varint(valLen) ‖ val`. -/
def recordFor (key data : List Nat) : List Nat :=
  varintEncode key.length ++ key ++ varintEncode data.length ++ data

/-- Modelled from the spec (§4.12): `checkLoadData` reloads only when a
peer process has bumped the meta file's sequence; in this
single-instance model the sequence always matches, so nothing is
reloaded. -/
def checkLoadData (st : MMKVState) : MMKVState := st

/-- Modelled from the spec (§4.9): `setDataForKey` appends the record
`varint(keyLen) ‖ key ‖ varint(valLen) ‖ value` to the payload, points
the index entry for `key` at the value bytes (a data holder keeps its
length prefix), advances `m_actualSize`, updates the CRC incrementally
over the new bytes, and writes `(actualSize, crcDigest)` to the meta
file keeping the sequence.  An empty key fails without altering state
(spec §7).  The growth/compaction step is omitted: the file is
modelled as unbounded. -/
def setDataForKey (crc32 : Nat → List Nat → Nat) (data key : List Nat)
    (isDataHolder : Bool) (st : MMKVState) : MMKVState × Bool :=
  if isKeyEmpty key then (st, false)
  else
    let record := recordFor key data
    let stored := if isDataHolder then varintEncode data.length ++ data else data
    let newActual := st.m_actualSize + record.length
    let newCrc := crc32 st.m_crcDigest record
    ({ m_dic := updateAssoc key stored st.m_dic,
       payload := st.payload ++ record,
       m_actualSize := newActual,
       m_crcDigest := newCrc,
       m_metaInfo := { m_crcDigest := newCrc, m_actualSize := newActual,
                       m_sequence := st.m_metaInfo.m_sequence },
       m_hasFullWriteback := st.m_hasFullWriteback }, true)

/-- Modelled from the spec (§2, §4.8): `getDataForKey` resolves the key
in the index and returns the value bytes; an absent key yields an
empty buffer. -/
def getDataForKey (st : MMKVState) (key : List Nat) : List Nat :=
  (lookupAssoc key st.m_dic).getD []

/-! ## `set` / `get` operations (translated from `src/Core/MMKV.cpp`) -/

/-- `MMKV::set(bool, MMKVKey_t)`. -/
def set_bool (crc32 : Nat → List Nat → Nat) (value : Bool) (key : List Nat)
    (st : MMKVState) : MMKVState × Bool :=
  if isKeyEmpty key then (st, false)
  else setDataForKey crc32 (encodeBool value) key false st

/-- `MMKV::set(int32_t, MMKVKey_t)`. -/
def set_int32 (crc32 : Nat → List Nat → Nat) (value : Int) (key : List Nat)
    (st : MMKVState) : MMKVState × Bool :=
  if isKeyEmpty key then (st, false)
  else setDataForKey crc32 (encodeInt32 value) key false st

/-- `MMKV::set(uint32_t, MMKVKey_t)`. -/
def set_uint32 (crc32 : Nat → List Nat → Nat) (value : Nat) (key : List Nat)
    (st : MMKVState) : MMKVState × Bool :=
  if isKeyEmpty key then (st, false)
  else setDataForKey crc32 (encodeUInt32 value) key false st

/-- `MMKV::set(int64_t, MMKVKey_t)`. -/
def set_int64 (crc32 : Nat → List Nat → Nat) (value : Int) (key : List Nat)
    (st : MMKVState) : MMKVState × Bool :=
  if isKeyEmpty key then (st, false)
  else setDataForKey crc32 (encodeInt64 value) key false st

/-- `MMKV::set(uint64_t, MMKVKey_t)`. -/
def set_uint64 (crc32 : Nat → List Nat → Nat) (value : Nat) (key : List Nat)
    (st : MMKVState) : MMKVState × Bool :=
  if isKeyEmpty key then (st, false)
  else setDataForKey crc32 (encodeUInt64 value) key false st

/-- `MMKV::set(float, MMKVKey_t)`; the float is modelled by its 32-bit
IEEE pattern. -/
def set_float (crc32 : Nat → List Nat → Nat) (bits : Nat) (key : List Nat)
    (st : MMKVState) : MMKVState × Bool :=
  if isKeyEmpty key then (st, false)
  else setDataForKey crc32 (encodeFixed32 bits) key false st

/-- `MMKV::set(double, MMKVKey_t)`; the double is modelled by its
64-bit IEEE pattern. -/
def set_double (crc32 : Nat → List Nat → Nat) (bits : Nat) (key : List Nat)
    (st : MMKVState) : MMKVState × Bool :=
  if isKeyEmpty key then (st, false)
  else setDataForKey crc32 (encodeFixed64 bits) key false st

/-- `MMKV::set(const string &, MMKVKey_t)` — the value is passed as a
data holder, so its length prefix is added on append. -/
def set_string (crc32 : Nat → List Nat → Nat) (value key : List Nat)
    (st : MMKVState) : MMKVState × Bool :=
  if isKeyEmpty key then (st, false)
  else setDataForKey crc32 value key true st

/-- `MMKV::set(const MMBuffer &, MMKVKey_t)` — likewise a data holder. -/
def set_bytes (crc32 : Nat → List Nat → Nat) (value key : List Nat)
    (st : MMKVState) : MMKVState × Bool :=
  if isKeyEmpty key then (st, false)
  else setDataForKey crc32 value key true st

/-- `MMKV::getBool`. -/
def getBool (st : MMKVState) (key : List Nat) (defaultValue : Bool) : Bool :=
  if isKeyEmpty key then defaultValue
  else
    let data := getDataForKey st key
    if 0 < data.length then
      match readBool data with
      | some b => b
      | none => defaultValue
    else defaultValue

/-- `MMKV::getInt32`. -/
def getInt32 (st : MMKVState) (key : List Nat) (defaultValue : Int) : Int :=
  if isKeyEmpty key then defaultValue
  else
    let data := getDataForKey st key
    if 0 < data.length then
      match readInt32 data with
      | some v => v
      | none => defaultValue
    else defaultValue

/-- `MMKV::getUInt32`. -/
def getUInt32 (st : MMKVState) (key : List Nat) (defaultValue : Nat) : Nat :=
  if isKeyEmpty key then defaultValue
  else
    let data := getDataForKey st key
    if 0 < data.length then
      match readUInt32 data with
      | some v => v
      | none => defaultValue
    else defaultValue

/-- `MMKV::getInt64`. -/
def getInt64 (st : MMKVState) (key : List Nat) (defaultValue : Int) : Int :=
  if isKeyEmpty key then defaultValue
  else
    let data := getDataForKey st key
    if 0 < data.length then
      match readInt64 data with
      | some v => v
      | none => defaultValue
    else defaultValue

/-- `MMKV::getUInt64`. -/
def getUInt64 (st : MMKVState) (key : List Nat) (defaultValue : Nat) : Nat :=
  if isKeyEmpty key then defaultValue
  else
    let data := getDataForKey st key
    if 0 < data.length then
      match readUInt64 data with
      | some v => v
      | none => defaultValue
    else defaultValue

/-- `MMKV::getFloat`; values as 32-bit IEEE patterns. -/
def getFloat (st : MMKVState) (key : List Nat) (defaultValue : Nat) : Nat :=
  if isKeyEmpty key then defaultValue
  else
    let data := getDataForKey st key
    if 0 < data.length then
      match readFixed32 data with
      | some v => v
      | none => defaultValue
    else defaultValue

/-- `MMKV::getDouble`; values as 64-bit IEEE patterns. -/
def getDouble (st : MMKVState) (key : List Nat) (defaultValue : Nat) : Nat :=
  if isKeyEmpty key then defaultValue
  else
    let data := getDataForKey st key
    if 0 < data.length then
      match readFixed64 data with
      | some v => v
      | none => defaultValue
    else defaultValue

/-- `MMKV::getString(key, result)`: `none` models `return false` with
the caller's `result` string left unassigned; `some s` models
`return true` with `result = s`. -/
def getString (st : MMKVState) (key : List Nat) : Option (List Nat) :=
  if isKeyEmpty key then none
  else
    let data := getDataForKey st key
    if 0 < data.length then readLengthPrefixed data else none

/-- `MMKV::getBytes`: an empty `MMBuffer` on every failure path. -/
def getBytes (st : MMKVState) (key : List Nat) : List Nat :=
  if isKeyEmpty key then []
  else
    let data := getDataForKey st key
    if 0 < data.length then (readLengthPrefixed data).getD [] else []

/-- Modelled from the spec (§4.6): `pbRawVarint32Size` — the number of
bytes of the varint encoding of an `int32` (10 for negative values). -/
def pbRawVarint32Size (value : Int) : Nat :=
  if value < 0 then 10 else (varintEncode value.toNat).length

/-- `MMKV::writeValueToBuffer(key, ptr, size)`: the first component is
the returned length (−1 on failure) and the second the bytes the call
copies into `ptr` (`none` when nothing is written). -/
def writeValueToBuffer (st : MMKVState) (key : List Nat) (size : Int) :
    Int × Option (List Nat) :=
  if isKeyEmpty key || size < 0 then (-1, none)
  else
    let data := getDataForKey st key
    match readInt32 data with
    | none => (-1, none)
    | some length =>
      let offset := pbRawVarint32Size length
      if 0 ≤ length then
        let s_length := length.toNat
        if offset + s_length = data.length then
          if s_length ≤ size.toNat then (length, some ((data.drop offset).take s_length))
          else (-1, none)
        else
          if data.length ≤ size.toNat then ((data.length : Int), some data)
          else (-1, none)
      else (-1, none)

/-- Modelled from the spec (§4.6): `MiniPBCoder::encodeDataWithObject`
for a list of strings — each element length-prefixed, the whole
sequence length-prefixed. -/
def encodeVector (v : List (List Nat)) : List Nat :=
  let items := (v.map (fun s => varintEncode s.length ++ s)).flatten
  varintEncode items.length ++ items

/-- The element loop of `MiniPBCoder::decodeVector`, with fuel bounding
the number of elements; fails on a malformed item. -/
def decodeStringList : Nat → List Nat → Option (List (List Nat))
  | _, [] => some []
  | 0, _ :: _ => none
  | fuel + 1, data =>
    match varintDecode data with
    | none => none
    | some (n, rest) =>
      if n ≤ rest.length then
        match decodeStringList fuel (rest.drop n) with
        | some items => some (rest.take n :: items)
        | none => none
      else none

/-- Modelled from the spec (§4.6): `MiniPBCoder::decodeVector` — strip
the sequence length prefix, then parse the length-prefixed elements. -/
def decodeVector (data : List Nat) : Option (List (List Nat)) :=
  match readLengthPrefixed data with
  | some payload => decodeStringList payload.length payload
  | none => none

/-- `MMKV::set(const vector<string> &, MMKVKey_t)`. -/
def set_vector (crc32 : Nat → List Nat → Nat) (v : List (List Nat))
    (key : List Nat) (st : MMKVState) : MMKVState × Bool :=
  if isKeyEmpty key then (st, false)
  else setDataForKey crc32 (encodeVector v) key false st

/-- `MMKV::getVector(key, result)`: `none` models `return false` with
the caller's vector untouched. -/
def getVector (st : MMKVState) (key : List Nat) :
    Option (List (List Nat)) :=
  if isKeyEmpty key then none
  else
    let data := getDataForKey st key
    if 0 < data.length then
      match decodeVector data with
      | some v => some v
      | none => none
    else none

/-- `MMKV::getValueSize(key, actualSize)`: 0 for an empty key;
otherwise the decoded inner length when `actualSize` is set and the
value is a well-formed length-prefixed run, else the raw stored
length. -/
def getValueSize (st : MMKVState) (key : List Nat) (actualSize : Bool) : Nat :=
  if isKeyEmpty key then 0
  else
    let data := getDataForKey st key
    if actualSize then
      match readInt32 data with
      | some length =>
        if 0 ≤ length then
          if pbRawVarint32Size length + length.toNat = data.length then length.toNat
          else data.length
        else data.length
      | none => data.length
    else data.length

/-! ## Remove paths and compaction -/

/-- Engine-level operations the claims track as invocations. -/
inductive Action where
  | checkLoadDataA
  | fullWritebackA
  deriving Repr, DecidableEq

/-- Modelled from the spec (§4.10): single-key remove appends a
tombstone record (`valLen == 0`) through the normal append path and
erases the index entry. -/
def removeDataForKey (crc32 : Nat → List Nat → Nat) (key : List Nat)
    (st : MMKVState) : MMKVState :=
  let record := recordFor key []
  let newActual := st.m_actualSize + record.length
  let newCrc := crc32 st.m_crcDigest record
  { m_dic := eraseAssoc key st.m_dic,
    payload := st.payload ++ record,
    m_actualSize := newActual,
    m_crcDigest := newCrc,
    m_metaInfo := { m_crcDigest := newCrc, m_actualSize := newActual,
                    m_sequence := st.m_metaInfo.m_sequence },
    m_hasFullWriteback := st.m_hasFullWriteback }

/-- `MMKV::removeValueForKey`; the second component is the trace of
engine operations invoked. -/
def removeValueForKey (crc32 : Nat → List Nat → Nat) (key : List Nat)
    (st : MMKVState) : MMKVState × List Action :=
  if isKeyEmpty key then (st, [])
  else (removeDataForKey crc32 key (checkLoadData st), [Action.checkLoadDataA])

/-- `MMKV::set(const char *, MMKVKey_t)`: a null value pointer
(`value = none`) delegates to the single-key remove and returns `true`;
otherwise the C string's bytes are stored as a data holder.  Note there
is no empty-key guard here — only `removeValueForKey`'s or
`setDataForKey`'s own checks apply. -/
def set_char_ptr (crc32 : Nat → List Nat → Nat) (value : Option (List Nat))
    (key : List Nat) (st : MMKVState) : MMKVState × Bool :=
  match value with
  | none => ((removeValueForKey crc32 key st).1, true)
  | some s => setDataForKey crc32 s key true st

/-- Modelled from the spec (§4.11 step 2): serialize the live index,
one record per key. -/
def serializeDic : List (List Nat × List Nat) → List Nat
  | [] => []
  | (k, v) :: rest => recordFor k v ++ serializeDic rest

/-- Modelled from the spec (§4.11): `fullWriteback` — a no-op when
`m_hasFullWriteback` is already set; otherwise rewrite the payload from
the live index, recompute the CRC, bump the meta sequence and set
`m_hasFullWriteback`. -/
def fullWriteback (crc32 : Nat → List Nat → Nat) (st : MMKVState) : MMKVState :=
  if st.m_hasFullWriteback then st
  else
    let newPayload := serializeDic st.m_dic
    let newCrc := crc32 0 newPayload
    { m_dic := st.m_dic,
      payload := newPayload,
      m_actualSize := newPayload.length,
      m_crcDigest := newCrc,
      m_metaInfo := { m_crcDigest := newCrc, m_actualSize := newPayload.length,
                      m_sequence := st.m_metaInfo.m_sequence + 1 },
      m_hasFullWriteback := true }

/-- The erase loop of `MMKV::removeValuesForKeys`: erase each listed
key found in the index, counting the deletions. -/
def eraseKeys (arrKeys : List (List Nat)) (st : MMKVState) : MMKVState × Nat :=
  match arrKeys with
  | [] => (st, 0)
  | key :: rest =>
    match lookupAssoc key st.m_dic with
    | some _ =>
      let next := eraseKeys rest { st with m_dic := eraseAssoc key st.m_dic }
      (next.1, next.2 + 1)
    | none => eraseKeys rest st

/-- `MMKV::removeValuesForKeys`; the second component is the trace of
engine operations invoked. -/
def removeValuesForKeys (crc32 : Nat → List Nat → Nat)
    (arrKeys : List (List Nat)) (st : MMKVState) : MMKVState × List Action :=
  match arrKeys with
  | [] => (st, [])
  | [key] => removeValueForKey crc32 key st
  | _ =>
    let st1 := checkLoadData st
    let result := eraseKeys arrKeys st1
    if 0 < result.2 then
      (fullWriteback crc32 { result.1 with m_hasFullWriteback := false },
       [Action.checkLoadDataA, Action.fullWritebackA])
    else (result.1, [Action.checkLoadDataA])

/-! ## Index and append-path lemmas -/

theorem encodeInt32_ne_nil (v : Int) : encodeInt32 v ≠ [] := by
  unfold encodeInt32
  split <;> exact varintEncode_ne_nil _

theorem encodeInt64_ne_nil (v : Int) : encodeInt64 v ≠ [] := by
  unfold encodeInt64
  split <;> exact varintEncode_ne_nil _

theorem isKeyEmpty_eq_false {key : List Nat} (hk : key ≠ []) :
    isKeyEmpty key = false := by
  cases key with
  | nil => exact absurd rfl hk
  | cons a t => rfl

theorem getDataForKey_set (crc32 : Nat → List Nat → Nat) (data key : List Nat)
    (holder : Bool) (st : MMKVState) (hk : key ≠ []) :
    getDataForKey (setDataForKey crc32 data key holder st).1 key =
      (if holder then varintEncode data.length ++ data else data) := by
  simp [setDataForKey, getDataForKey, isKeyEmpty_eq_false hk, updateAssoc, lookupAssoc]

theorem getString_set_string (crc32 : Nat → List Nat → Nat) (st : MMKVState)
    (key : List Nat) (hk : key ≠ []) (s : List Nat) :
    getString (set_string crc32 s key st).1 key = some s := by
  have hke := isKeyEmpty_eq_false hk
  have hdat : getDataForKey (setDataForKey crc32 s key true st).1 key =
      varintEncode s.length ++ s := by
    simpa using getDataForKey_set crc32 s key true st hk
  have hrt := readLengthPrefixed_prefix s []
  rw [List.append_nil] at hrt
  have hlen : 0 < (varintEncode s.length ++ s).length := by
    have := List.length_pos.mpr (varintEncode_ne_nil s.length)
    rw [List.length_append]
    omega
  simp only [set_string, getString, hke, Bool.false_eq_true, if_false, hdat]
  rw [if_pos hlen, hrt]

/-- C1: for every non-empty key and every value of a supported scalar or
byte-sequence type (booleans, signed/unsigned 32- and 64-bit integers in
range, float/double bit patterns, strings and byte buffers),
`set(k, v)` followed by the matching `get` on `k` returns exactly `v`. -/
theorem set_get_roundtrip (crc32 : Nat → List Nat → Nat) (st : MMKVState)
    (key : List Nat) (hk : key ≠ []) :
    (∀ b d, getBool (set_bool crc32 b key st).1 key d = b) ∧
    (∀ v d, -2 ^ 31 ≤ v → v < 2 ^ 31 → getInt32 (set_int32 crc32 v key st).1 key d = v) ∧
    (∀ v d, v < 2 ^ 32 → getUInt32 (set_uint32 crc32 v key st).1 key d = v) ∧
    (∀ v d, -2 ^ 63 ≤ v → v < 2 ^ 63 → getInt64 (set_int64 crc32 v key st).1 key d = v) ∧
    (∀ v d, v < 2 ^ 64 → getUInt64 (set_uint64 crc32 v key st).1 key d = v) ∧
    (∀ bits d, bits < 2 ^ 32 → getFloat (set_float crc32 bits key st).1 key d = bits) ∧
    (∀ bits d, bits < 2 ^ 64 → getDouble (set_double crc32 bits key st).1 key d = bits) ∧
    (∀ s, getString (set_string crc32 s key st).1 key = some s) ∧
    (∀ s, getBytes (set_bytes crc32 s key st).1 key = s) := by
  have hke := isKeyEmpty_eq_false hk
  refine ⟨?_, ?_, ?_, ?_, ?_, ?_, ?_, ?_, ?_⟩
  · intro b d
    have hdat : getDataForKey (setDataForKey crc32 (encodeBool b) key false st).1 key =
        encodeBool b := by
      simpa using getDataForKey_set crc32 (encodeBool b) key false st hk
    have hlen : 0 < (encodeBool b).length := by simp [encodeBool]
    simp [set_bool, getBool, hke, hdat, hlen, readBool_encodeBool]
  · intro v d h1 h2
    have hdat := getDataForKey_set crc32 (encodeInt32 v) key false st hk
    simp only [if_neg Bool.false_ne_true] at hdat
    have hlen : 0 < (encodeInt32 v).length :=
      List.length_pos.mpr (encodeInt32_ne_nil v)
    simp [set_int32, getInt32, hke, hdat, hlen, readInt32_encodeInt32 v h1 h2]
  · intro v d h
    have hdat := getDataForKey_set crc32 (encodeUInt32 v) key false st hk
    simp only [if_neg Bool.false_ne_true] at hdat
    have hlen : 0 < (encodeUInt32 v).length :=
      List.length_pos.mpr (varintEncode_ne_nil v)
    simp [set_uint32, getUInt32, hke, hdat, hlen, readUInt32_encodeUInt32 v h]
  · intro v d h1 h2
    have hdat := getDataForKey_set crc32 (encodeInt64 v) key false st hk
    simp only [if_neg Bool.false_ne_true] at hdat
    have hlen : 0 < (encodeInt64 v).length :=
      List.length_pos.mpr (encodeInt64_ne_nil v)
    simp [set_int64, getInt64, hke, hdat, hlen, readInt64_encodeInt64 v h1 h2]
  · intro v d h
    have hdat := getDataForKey_set crc32 (encodeUInt64 v) key false st hk
    simp only [if_neg Bool.false_ne_true] at hdat
    have hlen : 0 < (encodeUInt64 v).length :=
      List.length_pos.mpr (varintEncode_ne_nil v)
    simp [set_uint64, getUInt64, hke, hdat, hlen, readUInt64_encodeUInt64 v h]
  · intro bits d h
    have hdat : getDataForKey (setDataForKey crc32 (encodeFixed32 bits) key false st).1 key =
        encodeFixed32 bits := by
      simpa using getDataForKey_set crc32 (encodeFixed32 bits) key false st hk
    have hlen : 0 < (encodeFixed32 bits).length := by simp [encodeFixed32]
    simp [set_float, getFloat, hke, hdat, hlen, readFixed32_encodeFixed32 bits h]
  · intro bits d h
    have hdat : getDataForKey (setDataForKey crc32 (encodeFixed64 bits) key false st).1 key =
        encodeFixed64 bits := by
      simpa using getDataForKey_set crc32 (encodeFixed64 bits) key false st hk
    have hlen : 0 < (encodeFixed64 bits).length := by simp [encodeFixed64]
    simp [set_double, getDouble, hke, hdat, hlen, readFixed64_encodeFixed64 bits h]
  · intro s
    exact getString_set_string crc32 st key hk s
  · intro s
    have hdat := getDataForKey_set crc32 s key true st hk
    simp only [if_pos rfl] at hdat
    have hrt := readLengthPrefixed_prefix s []
    rw [List.append_nil] at hrt
    have hlen : 0 < (varintEncode s.length ++ s).length := by
      have := List.length_pos.mpr (varintEncode_ne_nil s.length)
      simp [List.length_append]
      omega
    simp [set_bytes, getBytes, hke, hdat, hlen, hrt]

/-- Concrete stand-ins for the external CRC32 routine and a store
state, used to instantiate the universally quantified theorems. -/
def exCrc : Nat → List Nat → Nat := fun seed bytes => seed + bytes.length

/-- A concrete store state holding one entry under key `[1]`. -/
def exSt : MMKVState :=
  { m_dic := [([1], [5])], payload := [1, 1, 1, 5], m_actualSize := 4,
    m_crcDigest := 4, m_metaInfo := ⟨4, 4, 0⟩, m_hasFullWriteback := false }

/-- Witness for C1 at key `[7]`, value `-3`. -/
theorem set_get_roundtrip_witness :
    getInt32 (set_int32 exCrc (-3) [7] exSt).1 [7] 0 = -3 :=
  (set_get_roundtrip exCrc exSt [7] (by decide)).2.1 (-3) 0 (by decide) (by decide)

/-- C2 (amended): every operation invoked with an empty key silently
fails without altering the store state (index, payload, actualSize,
CRC, meta file): every `set` returns `false`, every `get` (including
`getVector`) returns the caller's default, `getValueSize` returns 0,
`removeValueForKey` returns without invoking anything, and
`writeValueToBuffer` returns −1 for an empty key or a negative size —
with the one exception of `set(const char*)` with a null value
pointer, which delegates to `removeValueForKey` (a silent no-op on an
empty key) and returns `true`, also leaving the state unchanged. -/
theorem empty_key_silent_fail (crc32 : Nat → List Nat → Nat) (st : MMKVState) :
    (∀ key size, size < 0 → writeValueToBuffer st key size = (-1, none)) ∧
    (∀ size, writeValueToBuffer st [] size = (-1, none)) ∧
    (∀ b, set_bool crc32 b [] st = (st, false)) ∧
    (∀ v, set_int32 crc32 v [] st = (st, false)) ∧
    (∀ v, set_uint32 crc32 v [] st = (st, false)) ∧
    (∀ v, set_int64 crc32 v [] st = (st, false)) ∧
    (∀ v, set_uint64 crc32 v [] st = (st, false)) ∧
    (∀ v, set_float crc32 v [] st = (st, false)) ∧
    (∀ v, set_double crc32 v [] st = (st, false)) ∧
    (∀ s, set_string crc32 s [] st = (st, false)) ∧
    (∀ s, set_bytes crc32 s [] st = (st, false)) ∧
    (∀ s, set_char_ptr crc32 (some s) [] st = (st, false)) ∧
    set_char_ptr crc32 none [] st = (st, true) ∧
    (∀ v, set_vector crc32 v [] st = (st, false)) ∧
    (∀ d, getBool st [] d = d) ∧
    (∀ d, getInt32 st [] d = d) ∧
    (∀ d, getUInt32 st [] d = d) ∧
    (∀ d, getInt64 st [] d = d) ∧
    (∀ d, getUInt64 st [] d = d) ∧
    (∀ d, getFloat st [] d = d) ∧
    (∀ d, getDouble st [] d = d) ∧
    getString st [] = none ∧
    getBytes st [] = [] ∧
    getVector st [] = none ∧
    (∀ b, getValueSize st [] b = 0) ∧
    removeValueForKey crc32 [] st = (st, []) := by
  refine ⟨?_, fun _ => rfl, fun _ => rfl, fun _ => rfl, fun _ => rfl,
    fun _ => rfl, fun _ => rfl, fun _ => rfl, fun _ => rfl, fun _ => rfl,
    fun _ => rfl, fun _ => rfl, rfl, fun _ => rfl, fun _ => rfl, fun _ => rfl,
    fun _ => rfl, fun _ => rfl, fun _ => rfl, fun _ => rfl, fun _ => rfl,
    rfl, rfl, rfl, fun _ => rfl, rfl⟩
  intro key size hsz
  unfold writeValueToBuffer
  rw [if_pos]
  simp [hsz]

/-- Witness for C2 (amended) at key `[1]`, size −1. -/
theorem empty_key_silent_fail_witness :
    writeValueToBuffer exSt [1] (-1) = (-1, none) :=
  (empty_key_silent_fail exCrc exSt).1 [1] (-1) (by decide)

/-- C2 counterexample: `set((const char*)nullptr, key)` with an empty
key does not fail with `false`/default/−1 — it delegates to
`removeValueForKey`, a silent no-op on the empty key, and returns
`true` (the state is still unchanged). -/
theorem empty_key_set_nullptr_cex :
    set_char_ptr exCrc none [] exSt = (exSt, true) ∧
    (set_char_ptr exCrc none [] exSt).2 ≠ false := by
  decide

/-- C5: `getString` distinguishes absence from present-but-empty — an
absent key yields `none` (C++ `false` with `result` untouched), while a
key set to the empty string yields `some []` (C++ `true` with
`result` the empty string). -/
theorem getString_absent_vs_empty (crc32 : Nat → List Nat → Nat)
    (st : MMKVState) (key : List Nat) (hk : key ≠ []) :
    (∀ st' : MMKVState, lookupAssoc key st'.m_dic = none → getString st' key = none) ∧
    getString (set_string crc32 [] key st).1 key = some [] := by
  constructor
  · intro st' habsent
    unfold getString getDataForKey
    rw [habsent]
    simp
  · exact getString_set_string crc32 st key hk []

/-- Witness for C5 at key `[2]` (absent from `exSt`) and key `[7]`. -/
theorem getString_absent_vs_empty_witness :
    getString exSt [2] = none ∧
    getString (set_string exCrc [] [7] exSt).1 [7] = some [] :=
  ⟨(getString_absent_vs_empty exCrc exSt [7] (by decide)).1 exSt (by decide),
   (getString_absent_vs_empty exCrc exSt [7] (by decide)).2⟩

/-! ## Batch remove (C4) -/

theorem lookupAssoc_eraseAssoc_self (key : List Nat)
    (dic : List (List Nat × List Nat)) :
    lookupAssoc key (eraseAssoc key dic) = none := by
  induction dic with
  | nil => rfl
  | cons p rest ih =>
    by_cases h : p.1 = key
    · simpa [eraseAssoc, List.filter_cons, h] using ih
    · simpa [eraseAssoc, List.filter_cons, h, lookupAssoc] using ih

theorem lookupAssoc_eraseAssoc_of_none (key other : List Nat)
    (dic : List (List Nat × List Nat)) (h : lookupAssoc key dic = none) :
    lookupAssoc key (eraseAssoc other dic) = none := by
  induction dic with
  | nil => rfl
  | cons p rest ih =>
    rw [lookupAssoc] at h
    by_cases hp : p.1 = key
    · rw [if_pos hp] at h
      cases h
    · rw [if_neg hp] at h
      by_cases ho : p.1 = other
      · simpa [eraseAssoc, List.filter_cons, ho] using ih h
      · simpa [eraseAssoc, List.filter_cons, ho, lookupAssoc, hp] using ih h

theorem eraseKeys_of_none (ks : List (List Nat)) (st : MMKVState)
    (key : List Nat) (h : lookupAssoc key st.m_dic = none) :
    lookupAssoc key (eraseKeys ks st).1.m_dic = none := by
  induction ks generalizing st with
  | nil => simpa [eraseKeys] using h
  | cons k rest ih =>
    rw [eraseKeys]
    cases hl : lookupAssoc k st.m_dic with
    | some v =>
      exact ih { st with m_dic := eraseAssoc k st.m_dic }
        (lookupAssoc_eraseAssoc_of_none key k st.m_dic h)
    | none => exact ih st h

theorem eraseKeys_mem_none (ks : List (List Nat)) (st : MMKVState) :
    ∀ key ∈ ks, lookupAssoc key (eraseKeys ks st).1.m_dic = none := by
  induction ks generalizing st with
  | nil => intro key hmem; cases hmem
  | cons k rest ih =>
    intro key hmem
    rw [eraseKeys]
    rcases List.mem_cons.mp hmem with heq | hmem
    · subst heq
      cases hl : lookupAssoc key st.m_dic with
      | some v =>
        exact eraseKeys_of_none rest _ key (lookupAssoc_eraseAssoc_self key st.m_dic)
      | none => exact eraseKeys_of_none rest st key hl
    · cases hl : lookupAssoc k st.m_dic with
      | some v => exact ih { st with m_dic := eraseAssoc k st.m_dic } key hmem
      | none => exact ih st key hmem

theorem eraseKeys_count_pos (ks : List (List Nat)) (st : MMKVState) :
    0 < (eraseKeys ks st).2 ↔ ∃ k ∈ ks, lookupAssoc k st.m_dic ≠ none := by
  induction ks generalizing st with
  | nil => simp [eraseKeys]
  | cons k rest ih =>
    rw [eraseKeys]
    cases hl : lookupAssoc k st.m_dic with
    | some v =>
      simp only [Nat.zero_lt_succ, true_iff]
      exact ⟨k, List.mem_cons_self k rest, by rw [hl]; simp⟩
    | none =>
      rw [ih st]
      constructor
      · rintro ⟨k', hk', hne⟩
        exact ⟨k', List.mem_cons_of_mem k hk', hne⟩
      · rintro ⟨k', hk', hne⟩
        rcases List.mem_cons.mp hk' with heq | hmem
        · subst heq
          exact absurd hl hne
        · exact ⟨k', hmem, hne⟩

theorem eraseKeys_all_none (ks : List (List Nat)) (st : MMKVState)
    (h : ∀ k ∈ ks, lookupAssoc k st.m_dic = none) :
    eraseKeys ks st = (st, 0) := by
  induction ks with
  | nil => rfl
  | cons k rest ih =>
    rw [eraseKeys, h k (List.mem_cons_self k rest)]
    exact ih (fun k' hk' => h k' (List.mem_cons_of_mem k hk'))

theorem fullWriteback_m_dic (crc32 : Nat → List Nat → Nat) (st : MMKVState) :
    (fullWriteback crc32 st).m_dic = st.m_dic := by
  unfold fullWriteback
  split <;> rfl

theorem removeValuesForKeys_cons2 (crc32 : Nat → List Nat → Nat)
    (a b : List Nat) (rest : List (List Nat)) (st : MMKVState) :
    removeValuesForKeys crc32 (a :: b :: rest) st =
      (if 0 < (eraseKeys (a :: b :: rest) st).2 then
        (fullWriteback crc32
           { (eraseKeys (a :: b :: rest) st).1 with m_hasFullWriteback := false },
         [Action.checkLoadDataA, Action.fullWritebackA])
      else ((eraseKeys (a :: b :: rest) st).1, [Action.checkLoadDataA])) := rfl

/-- C4 (amended): `removeValuesForKeys` with N ≥ 2 keys erases every
listed key from the in-memory index; it clears `m_hasFullWriteback` and
invokes `fullWriteback()` exactly when at least one listed key was
present (`deleteCount > 0`); when none was present it performs only the
`checkLoadData` freshness check and leaves the state unchanged.  A
one-element list goes through the single-key remove path. -/
theorem removeValuesForKeys_spec (crc32 : Nat → List Nat → Nat) (st : MMKVState) :
    (∀ key, removeValuesForKeys crc32 [key] st = removeValueForKey crc32 key st) ∧
    (∀ arrKeys, 2 ≤ arrKeys.length →
      (∀ k ∈ arrKeys,
        lookupAssoc k (removeValuesForKeys crc32 arrKeys st).1.m_dic = none) ∧
      ((∃ k ∈ arrKeys, lookupAssoc k st.m_dic ≠ none) ↔
        Action.fullWritebackA ∈ (removeValuesForKeys crc32 arrKeys st).2) ∧
      ((∃ k ∈ arrKeys, lookupAssoc k st.m_dic ≠ none) →
        (removeValuesForKeys crc32 arrKeys st).1 =
          fullWriteback crc32
            { (eraseKeys arrKeys st).1 with m_hasFullWriteback := false }) ∧
      ((∀ k ∈ arrKeys, lookupAssoc k st.m_dic = none) →
        removeValuesForKeys crc32 arrKeys st = (st, [Action.checkLoadDataA]))) := by
  constructor
  · intro key
    rfl
  · intro arrKeys h2
    match arrKeys, h2 with
    | a :: b :: rest, _ =>
      rw [removeValuesForKeys_cons2]
      refine ⟨?_, ?_, ?_, ?_⟩
      · intro k hk
        split
        · rw [fullWriteback_m_dic]
          exact eraseKeys_mem_none (a :: b :: rest) st k hk
        · exact eraseKeys_mem_none (a :: b :: rest) st k hk
      · rw [← eraseKeys_count_pos (a :: b :: rest) st]
        split
        · next hpos => simp [hpos]
        · next hpos => simp [hpos]
      · intro hex
        rw [if_pos ((eraseKeys_count_pos (a :: b :: rest) st).mpr hex)]
      · intro hall
        rw [eraseKeys_all_none (a :: b :: rest) st hall]
        simp

/-- A concrete store state with `m_hasFullWriteback` set, holding one
entry under key `[1]`. -/
def exStW : MMKVState :=
  { m_dic := [([1], [5])], payload := [], m_actualSize := 0,
    m_crcDigest := 0, m_metaInfo := ⟨0, 0, 0⟩, m_hasFullWriteback := true }

/-- C4 counterexample: a two-key call whose keys `[2]`, `[3]` are both
absent does not invoke `fullWriteback()`, does not clear
`m_hasFullWriteback`, and leaves the state unchanged, contradicting the
claim's unconditional invocation for N ≥ 2. -/
theorem removeValuesForKeys_absent_cex :
    2 ≤ ([[2], [3]] : List (List Nat)).length ∧
    Action.fullWritebackA ∉ (removeValuesForKeys exCrc [[2], [3]] exStW).2 ∧
    (removeValuesForKeys exCrc [[2], [3]] exStW).1 = exStW ∧
    (removeValuesForKeys exCrc [[2], [3]] exStW).1.m_hasFullWriteback = true := by
  decide

/-- Witness for C4 (amended) at keys `[2]`, `[3]` over `exSt`. -/
theorem removeValuesForKeys_spec_witness :
    removeValuesForKeys exCrc [[2], [3]] exSt = (exSt, [Action.checkLoadDataA]) :=
  ((removeValuesForKeys_spec exCrc exSt).2 [[2], [3]] (by decide)).2.2.2 (by decide)

/-! ## Crypt-key management (C3, C9) -/

/-- `AES_KEY_LEN` from `aes/AESCrypt.h`. -/
def AES_KEY_LEN : Nat := 16

/-- Modelled from the spec (§4.4): the AES-128 cipher object; only the
key buffer matters to the claims.  `getKey` copies this raw
`AES_KEY_LEN`-byte buffer. -/
structure AESCrypt where
  keyBuf : List Nat
  deriving Repr, DecidableEq

/-- Modelled from the spec (§4.4): the `AESCrypt(key, keyLength)`
constructor keeps at most `AES_KEY_LEN` bytes of the key, the remainder
of the fixed-size buffer being zero. -/
def newAESCrypt (key : List Nat) : AESCrypt :=
  ⟨key.take AES_KEY_LEN ++ List.replicate (AES_KEY_LEN - key.length) 0⟩

/-- The instance fields `MMKV::MMKV` initializes that the claims
examine: identity, derived paths, and the optional crypter. -/
structure MMKVInst where
  m_mmapID : String
  m_path : String
  m_crcPath : String
  m_crypter : Option AESCrypt
  deriving Repr, DecidableEq

/-- C `strnlen(s, maxLen)`: the index of the first NUL byte, capped at
`maxLen`. -/
def strnlen (buf : List Nat) (maxLen : Nat) : Nat :=
  min maxLen (buf.takeWhile (fun b => b ≠ 0)).length

/-- `MMKV::cryptKey`: with a crypter, build the string
`string(key, strnlen(key, AES_KEY_LEN))` from the raw buffer `getKey`
copies out; without one, return the empty string. -/
def cryptKey (inst : MMKVInst) : List Nat :=
  match inst.m_crypter with
  | some c => c.keyBuf.take (strnlen c.keyBuf AES_KEY_LEN)
  | none => []

/-- `MMKV::checkReSetCryptKey(cryptKey)`; the second component is the
trace of engine operations invoked. -/
def checkReSetCryptKey (newKey : Option (List Nat)) (inst : MMKVInst) :
    MMKVInst × List Action :=
  match inst.m_crypter with
  | some _ =>
    match newKey with
    | some k =>
      if 0 < k.length then
        if cryptKey inst ≠ k then
          ({ inst with m_crypter := some (newAESCrypt k) }, [Action.checkLoadDataA])
        else (inst, [])
      else ({ inst with m_crypter := none }, [Action.checkLoadDataA])
    | none => ({ inst with m_crypter := none }, [Action.checkLoadDataA])
  | none =>
    match newKey with
    | some k =>
      if 0 < k.length then
        ({ inst with m_crypter := some (newAESCrypt k) }, [Action.checkLoadDataA])
      else (inst, [])
    | none => (inst, [])

theorem takeWhile_ne_zero_append_replicate (k : List Nat) (n : Nat) :
    (k ++ List.replicate n 0).takeWhile (fun b => b ≠ 0) =
      k.takeWhile (fun b => b ≠ 0) := by
  induction k with
  | nil =>
    cases n with
    | zero => rfl
    | succ m => simp [List.replicate_succ, List.takeWhile_cons]
  | cons a t ih =>
    by_cases h : a = 0
    · simp [List.takeWhile_cons, h]
    · simpa [List.takeWhile_cons, h] using ih

theorem newAESCrypt_keyBuf_length (k : List Nat) :
    (newAESCrypt k).keyBuf.length = AES_KEY_LEN := by
  simp only [newAESCrypt, List.length_append, List.length_take, List.length_replicate,
    AES_KEY_LEN]
  omega

theorem cryptKey_of_newAESCrypt (inst : MMKVInst) (k : List Nat)
    (h : inst.m_crypter = some (newAESCrypt k)) :
    cryptKey inst = (k.take AES_KEY_LEN).takeWhile (fun b => b ≠ 0) := by
  unfold cryptKey
  rw [h]
  show (newAESCrypt k).keyBuf.take (strnlen (newAESCrypt k).keyBuf AES_KEY_LEN) =
    (k.take AES_KEY_LEN).takeWhile (fun b => b ≠ 0)
  unfold strnlen
  have hbuf : (newAESCrypt k).keyBuf =
      k.take AES_KEY_LEN ++ List.replicate (AES_KEY_LEN - k.length) 0 := rfl
  rw [hbuf, takeWhile_ne_zero_append_replicate]
  have hlen1 : ((k.take AES_KEY_LEN).takeWhile (fun b => decide (b ≠ 0))).length ≤
      (k.take AES_KEY_LEN).length :=
    (List.takeWhile_prefix _).length_le
  have hlen2 : (k.take AES_KEY_LEN).length ≤ AES_KEY_LEN := by
    simp [List.length_take]
  rw [min_eq_right (le_trans hlen1 hlen2)]
  rw [List.take_append_of_le_length hlen1]
  exact (List.prefix_iff_eq_take.mp (List.takeWhile_prefix _)).symm

/-- C9: `cryptKey()` returns the empty string without a crypter; with a
crypter built from key `k` it returns the bytes of `k` up to
`AES_KEY_LEN`, truncated at the first NUL, so its length never exceeds
`AES_KEY_LEN` and a key containing a NUL byte is never returned in
full. -/
theorem cryptKey_spec :
    (∀ inst : MMKVInst, inst.m_crypter = none → cryptKey inst = []) ∧
    (∀ (inst : MMKVInst) (k : List Nat), inst.m_crypter = some (newAESCrypt k) →
      cryptKey inst = (k.take AES_KEY_LEN).takeWhile (fun b => b ≠ 0)) ∧
    (∀ (inst : MMKVInst) (k : List Nat), inst.m_crypter = some (newAESCrypt k) →
      (cryptKey inst).length ≤ AES_KEY_LEN) ∧
    (∀ (inst : MMKVInst) (k : List Nat), inst.m_crypter = some (newAESCrypt k) →
      0 ∈ k → cryptKey inst ≠ k) := by
  refine ⟨?_, ?_, ?_, ?_⟩
  · intro inst h
    unfold cryptKey
    rw [h]
  · exact cryptKey_of_newAESCrypt
  · intro inst k h
    rw [cryptKey_of_newAESCrypt inst k h]
    have h1 : ((k.take AES_KEY_LEN).takeWhile (fun b => decide (b ≠ 0))).length ≤
        (k.take AES_KEY_LEN).length :=
      (List.takeWhile_prefix _).length_le
    have h2 : (k.take AES_KEY_LEN).length ≤ AES_KEY_LEN := by
      simp [List.length_take]
    exact le_trans h1 h2
  · intro inst k h h0 heq
    rw [cryptKey_of_newAESCrypt inst k h] at heq
    -- if the truncated key equals `k`, every byte of `k` is non-NUL
    have hmem : (0 : Nat) ∈ (k.take AES_KEY_LEN).takeWhile (fun b => b ≠ 0) := by
      rw [heq]
      exact h0
    have := List.mem_takeWhile_imp hmem
    simp at this

/-- Witness for C9: a crypter built from key `[7, 0, 8]` never returns
that key in full. -/
theorem cryptKey_spec_witness :
    cryptKey { m_mmapID := "a", m_path := "p", m_crcPath := "p.crc",
               m_crypter := some (newAESCrypt [7, 0, 8]) } ≠ [7, 0, 8] :=
  cryptKey_spec.2.2.2
    { m_mmapID := "a", m_path := "p", m_crcPath := "p.crc",
      m_crypter := some (newAESCrypt [7, 0, 8]) }
    [7, 0, 8] rfl (by decide)

/-- A concrete encrypted instance for the C3 counterexample. -/
def exInstC : MMKVInst :=
  { m_mmapID := "a", m_path := "r/a", m_crcPath := "r/a.crc",
    m_crypter := some (newAESCrypt [1, 2, 3]) }

/-- C3 counterexample: re-keying an encrypted instance to the different
key `[9, 9]` invokes `checkLoadData()`, not `fullWriteback()` — the
claimed forced `fullWriteback` does not happen. -/
theorem checkReSetCryptKey_no_writeback_cex :
    exInstC.m_crypter ≠ none ∧
    cryptKey exInstC ≠ [9, 9] ∧
    (checkReSetCryptKey (some [9, 9]) exInstC).2 = [Action.checkLoadDataA] ∧
    Action.fullWritebackA ∉ (checkReSetCryptKey (some [9, 9]) exInstC).2 := by
  decide

theorem checkReSetCryptKey_crypt_some (inst : MMKVInst) (c : AESCrypt)
    (k : List Nat) (hc : inst.m_crypter = some c) :
    checkReSetCryptKey (some k) inst =
      (if 0 < k.length then
        (if cryptKey inst ≠ k then
          ({ inst with m_crypter := some (newAESCrypt k) }, [Action.checkLoadDataA])
        else (inst, []))
      else ({ inst with m_crypter := none }, [Action.checkLoadDataA])) := by
  unfold checkReSetCryptKey
  rw [hc]

theorem checkReSetCryptKey_crypt_none (inst : MMKVInst) (c : AESCrypt)
    (hc : inst.m_crypter = some c) :
    checkReSetCryptKey none inst =
      ({ inst with m_crypter := none }, [Action.checkLoadDataA]) := by
  unfold checkReSetCryptKey
  rw [hc]

theorem checkReSetCryptKey_plain_some (inst : MMKVInst) (k : List Nat)
    (hc : inst.m_crypter = none) :
    checkReSetCryptKey (some k) inst =
      (if 0 < k.length then
        ({ inst with m_crypter := some (newAESCrypt k) }, [Action.checkLoadDataA])
      else (inst, [])) := by
  unfold checkReSetCryptKey
  rw [hc]

theorem checkReSetCryptKey_plain_none (inst : MMKVInst)
    (hc : inst.m_crypter = none) :
    checkReSetCryptKey none inst = (inst, []) := by
  unfold checkReSetCryptKey
  rw [hc]

/-- C3 (amended): `checkReSetCryptKey` performs the four transitions on
the crypter — plain → crypt with a non-empty key attaches a new
`AESCrypt`; crypt → plain (null or empty new key) discards it;
crypt → crypt with a non-empty key differing from `cryptKey()` replaces
it; a new key equal to the non-empty `cryptKey()` is a no-op — and each
non-no-op transition invokes `checkLoadData()`; `fullWriteback()` is
never invoked by this call. -/
theorem checkReSetCryptKey_transitions (inst : MMKVInst) (k : List Nat) :
    (Action.fullWritebackA ∉ (checkReSetCryptKey (some k) inst).2 ∧
     Action.fullWritebackA ∉ (checkReSetCryptKey none inst).2) ∧
    (inst.m_crypter = none → k ≠ [] →
      checkReSetCryptKey (some k) inst =
        ({ inst with m_crypter := some (newAESCrypt k) }, [Action.checkLoadDataA])) ∧
    (inst.m_crypter = none →
      checkReSetCryptKey none inst = (inst, []) ∧
      checkReSetCryptKey (some []) inst = (inst, [])) ∧
    (inst.m_crypter ≠ none →
      checkReSetCryptKey none inst =
        ({ inst with m_crypter := none }, [Action.checkLoadDataA]) ∧
      checkReSetCryptKey (some []) inst =
        ({ inst with m_crypter := none }, [Action.checkLoadDataA])) ∧
    (inst.m_crypter ≠ none → k ≠ [] → cryptKey inst ≠ k →
      checkReSetCryptKey (some k) inst =
        ({ inst with m_crypter := some (newAESCrypt k) }, [Action.checkLoadDataA])) ∧
    (inst.m_crypter ≠ none → k ≠ [] → cryptKey inst = k →
      checkReSetCryptKey (some k) inst = (inst, [])) := by
  have hkpos : k ≠ [] → 0 < k.length := fun h => List.length_pos.mpr h
  refine ⟨⟨?_, ?_⟩, ?_, ?_, ?_, ?_, ?_⟩
  · cases hc : inst.m_crypter with
    | none =>
      rw [checkReSetCryptKey_plain_some inst k hc]
      split <;> simp
    | some c =>
      rw [checkReSetCryptKey_crypt_some inst c k hc]
      split
      · split <;> simp
      · simp
  · cases hc : inst.m_crypter with
    | none =>
      rw [checkReSetCryptKey_plain_none inst hc]
      simp
    | some c =>
      rw [checkReSetCryptKey_crypt_none inst c hc]
      simp
  · intro hnone hk
    rw [checkReSetCryptKey_plain_some inst k hnone, if_pos (hkpos hk)]
  · intro hnone
    exact ⟨checkReSetCryptKey_plain_none inst hnone, by
      rw [checkReSetCryptKey_plain_some inst [] hnone]
      simp⟩
  · intro hsome
    obtain ⟨c, hc⟩ := Option.ne_none_iff_exists'.mp hsome
    exact ⟨checkReSetCryptKey_crypt_none inst c hc, by
      rw [checkReSetCryptKey_crypt_some inst c [] hc]
      simp⟩
  · intro hsome hk hne
    obtain ⟨c, hc⟩ := Option.ne_none_iff_exists'.mp hsome
    rw [checkReSetCryptKey_crypt_some inst c k hc, if_pos (hkpos hk), if_pos hne]
  · intro hsome hk heq
    obtain ⟨c, hc⟩ := Option.ne_none_iff_exists'.mp hsome
    rw [checkReSetCryptKey_crypt_some inst c k hc, if_pos (hkpos hk), if_neg]
    simp [heq]

/-- Witness for C3 (amended): re-keying `exInstC` to `[9, 9]`. -/
theorem checkReSetCryptKey_transitions_witness :
    checkReSetCryptKey (some [9, 9]) exInstC =
      ({ exInstC with m_crypter := some (newAESCrypt [9, 9]) },
       [Action.checkLoadDataA]) :=
  (checkReSetCryptKey_transitions exInstC [9, 9]).2.2.2.2.1
    (by decide) (by decide) (by decide)

/-! ## File-path derivation and the instance registry (C6, C8)

The openssl MD5 primitive is external to the excerpted source; the
functions that call it take the raw 16-byte digest map as a parameter
`MD5digest : String → List Nat`. -/

/-- `SPECIAL_CHARACTER_DIRECTORY_NAME`. -/
def SPECIAL_CHARACTER_DIRECTORY_NAME : String := "specialCharacter"

/-- `MMKV_PATH_SLASH`. -/
def MMKV_PATH_SLASH : String := "/"

/-- The nine characters of the `specialCharacters` C string literal. -/
def specialCharacters : List Char := "\\/:*?\"<>|".toList

/-- `strchr(specialCharacters, ch) != nullptr`: `strchr` searches the
NUL-terminated string including its terminator, so it also finds
`ch == '\0'`. -/
def inSpecialCharacters (ch : Char) : Bool :=
  ch ∈ specialCharacters || ch = Char.ofNat 0

/-- One lowercase hex digit (`snprintf("%2.2x")` output alphabet). -/
def hexDigit (n : Nat) : Char :=
  if n < 10 then Char.ofNat (48 + n) else Char.ofNat (87 + n)

/-- The two lowercase, zero-padded hex digits `snprintf("%2.2x", ch)`
produces for one byte. -/
def hexByte (b : Nat) : List Char := [hexDigit (b / 16 % 16), hexDigit (b % 16)]

/-- The digest-formatting loop of `md5`: each byte to two hex chars. -/
def hexOfBytes : List Nat → List Char
  | [] => []
  | b :: rest => hexByte b ++ hexOfBytes rest

/-- The `md5` template: format the 16-byte openssl digest (external,
passed as `MD5digest`) as a lowercase hex string. -/
def md5 (MD5digest : String → List Nat) (value : String) : String :=
  ⟨hexOfBytes (MD5digest value)⟩

/-- `encodeFilePath(mmapID)`: scan the id for special characters; if
one is found, the on-disk name is the hex MD5 of the full id under the
`specialCharacter` subdirectory, otherwise the id itself. -/
def encodeFilePath (MD5digest : String → List Nat) (mmapID : String) : String :=
  if mmapID.toList.any inSpecialCharacters then
    SPECIAL_CHARACTER_DIRECTORY_NAME ++ MMKV_PATH_SLASH ++ md5 MD5digest mmapID
  else mmapID

/-- `mappedKVPathWithID` (non-Android): relative path or root dir,
slash, encoded file name. -/
def mappedKVPathWithID (MD5digest : String → List Nat) (rootDir : String)
    (mmapID : String) (relativePath : Option String) : String :=
  match relativePath with
  | some p => p ++ MMKV_PATH_SLASH ++ encodeFilePath MD5digest mmapID
  | none => rootDir ++ MMKV_PATH_SLASH ++ encodeFilePath MD5digest mmapID

/-- `crcPathWithID`: the data path with the `.crc` suffix. -/
def crcPathWithID (MD5digest : String → List Nat) (rootDir : String)
    (mmapID : String) (relativePath : Option String) : String :=
  mappedKVPathWithID MD5digest rootDir mmapID relativePath ++ ".crc"

/-- `mmapedKVKey`: the registry key — the id itself, or the MD5 of the
full path when a distinct relative path is given. -/
def mmapedKVKey (MD5digest : String → List Nat) (rootDir : String)
    (mmapID : String) (relativePath : Option String) : String :=
  match relativePath with
  | some p =>
    if rootDir ≠ p then md5 MD5digest (p ++ MMKV_PATH_SLASH ++ mmapID)
    else mmapID
  | none => mmapID

/-- The member initializers of `MMKV::MMKV` the claims examine:
`m_mmapID` keeps the given id unchanged, the paths derive through
`encodeFilePath`, and a non-empty crypt key attaches an `AESCrypt`. -/
def mkMMKV (MD5digest : String → List Nat) (mmapID : String)
    (cryptKeyArg : Option (List Nat)) (relativePath : Option String)
    (rootDir : String) : MMKVInst :=
  { m_mmapID := mmapID,
    m_path := mappedKVPathWithID MD5digest rootDir mmapID relativePath,
    m_crcPath := crcPathWithID MD5digest rootDir mmapID relativePath,
    m_crypter :=
      match cryptKeyArg with
      | some k => if 0 < k.length then some (newAESCrypt k) else none
      | none => none }

/-- The process-wide registry `g_instanceDic`. -/
structure GlobalState where
  g_instanceDic : List (String × MMKVInst)
  deriving Repr, DecidableEq

/-- `g_instanceDic->find`. -/
def lookupInst (key : String) : List (String × MMKVInst) → Option MMKVInst
  | [] => none
  | (k, v) :: rest => if k = key then some v else lookupInst key rest

/-- Registry and file-system actions `mmkvWithID` can perform. -/
inductive GAction where
  | lockInstanceRegistry
  | findInRegistry
  | mkSpecialPath
  | constructInstance
  deriving Repr, DecidableEq

/-- `MMKV::mmkvWithID` (non-Android): `nullptr` for the empty id;
otherwise lock the registry, look up the mmap key, return the cached
instance or construct, register and return a new one.  The third
component is the trace of registry/file actions performed. -/
def mmkvWithID (MD5digest : String → List Nat) (gst : GlobalState)
    (rootDir : String) (mmapID : String) (cryptKeyArg : Option (List Nat))
    (relativePath : Option String) :
    Option MMKVInst × GlobalState × List GAction :=
  if mmapID = "" then (none, gst, [])
  else
    let mmapKey := mmapedKVKey MD5digest rootDir mmapID relativePath
    match lookupInst mmapKey gst.g_instanceDic with
    | some kv => (some kv, gst, [GAction.lockInstanceRegistry, GAction.findInRegistry])
    | none =>
      let mkPathActs : List GAction :=
        match relativePath with
        | some _ => [GAction.mkSpecialPath]
        | none => []
      let kv := mkMMKV MD5digest mmapID cryptKeyArg relativePath rootDir
      (some kv, { g_instanceDic := (mmapKey, kv) :: gst.g_instanceDic },
       [GAction.lockInstanceRegistry, GAction.findInRegistry] ++ mkPathActs ++
         [GAction.constructInstance])

/-- The sixteen lowercase hex characters. -/
def hexLowercase : List Char := "0123456789abcdef".toList

theorem hexDigit_mem_of_lt : ∀ n < 16, hexDigit n ∈ hexLowercase := by decide

theorem hexOfBytes_length (bytes : List Nat) :
    (hexOfBytes bytes).length = 2 * bytes.length := by
  induction bytes with
  | nil => rfl
  | cons b rest ih =>
    simp only [hexOfBytes, hexByte, List.length_append, List.length_cons,
      List.length_nil, ih, List.length_cons]
    omega

theorem hexOfBytes_mem (bytes : List Nat) :
    ∀ c ∈ hexOfBytes bytes, c ∈ hexLowercase := by
  induction bytes with
  | nil => intro c hc; cases hc
  | cons b rest ih =>
    intro c hc
    rcases List.mem_append.mp hc with hc | hc
    · rcases List.mem_cons.mp hc with rfl | hc
      · exact hexDigit_mem_of_lt _ (Nat.mod_lt _ (by omega))
      · rcases List.mem_cons.mp hc with rfl | hc
        · exact hexDigit_mem_of_lt _ (Nat.mod_lt _ (by omega))
        · cases hc
    · exact ih c hc

/-- C6 (amended): for every `mmapID` containing one of
`\ / : * ? " < > |` or a NUL byte (`strchr` also matches the string
terminator), the derived filename is the 32-character lowercase-hex MD5
digest of the full `mmapID` under the fixed `specialCharacter`
subdirectory, while the constructed instance's `m_mmapID` keeps the
original string; for every `mmapID` containing none of these, the
filename is the `mmapID` itself. -/
theorem encodeFilePath_spec (MD5digest : String → List Nat) (mmapID : String)
    (rootDir : String) (rp : Option String) (ck : Option (List Nat))
    (hlen : (MD5digest mmapID).length = 16) :
    (mmapID.toList.any inSpecialCharacters = true →
      encodeFilePath MD5digest mmapID =
        SPECIAL_CHARACTER_DIRECTORY_NAME ++ MMKV_PATH_SLASH ++ md5 MD5digest mmapID ∧
      (md5 MD5digest mmapID).toList.length = 32 ∧
      (∀ c ∈ (md5 MD5digest mmapID).toList, c ∈ hexLowercase)) ∧
    (mmapID.toList.any inSpecialCharacters = false →
      encodeFilePath MD5digest mmapID = mmapID) ∧
    (mkMMKV MD5digest mmapID ck rp rootDir).m_mmapID = mmapID := by
  refine ⟨?_, ?_, rfl⟩
  · intro hspec
    refine ⟨by rw [encodeFilePath, if_pos hspec], ?_, ?_⟩
    · show (hexOfBytes (MD5digest mmapID)).length = 32
      rw [hexOfBytes_length, hlen]
    · intro c hc
      exact hexOfBytes_mem (MD5digest mmapID) c hc
  · intro hspec
    have hnc : ¬(mmapID.toList.any inSpecialCharacters = true) := by
      rw [hspec]
      exact Bool.false_ne_true
    rw [encodeFilePath, if_neg hnc]

/-- The all-zero stand-in for the external MD5 digest. -/
def exMD5 : String → List Nat := fun _ => List.replicate 16 0

/-- C6 counterexample: `"a\x00b"` contains none of the nine listed
special characters, yet `encodeFilePath` does not map it to itself —
the embedded NUL matches `strchr`'s terminator and forces the MD5
path. -/
theorem encodeFilePath_nul_cex :
    (∀ c ∈ "a\x00b".toList, c ∉ specialCharacters) ∧
    encodeFilePath exMD5 "a\x00b" ≠ "a\x00b" ∧
    encodeFilePath exMD5 "a\x00b" =
      "specialCharacter/00000000000000000000000000000000" := by
  decide

/-- Witness for C6 (amended) at `mmapID = "a:b"` with the all-zero
digest function. -/
theorem encodeFilePath_spec_witness :
    encodeFilePath exMD5 "a:b" =
      SPECIAL_CHARACTER_DIRECTORY_NAME ++ MMKV_PATH_SLASH ++ md5 exMD5 "a:b" :=
  ((encodeFilePath_spec exMD5 "a:b" "" none none (by decide)).1 (by decide)).1

/-- C8: `mmkvWithID` with an empty `mmapID` returns `nullptr` at once —
the registry is neither locked nor consulted, no path is created, no
instance constructed, and the registry state is unchanged. -/
theorem mmkvWithID_empty_id (MD5digest : String → List Nat) (gst : GlobalState)
    (rootDir : String) (ck : Option (List Nat)) (rp : Option String) :
    mmkvWithID MD5digest gst rootDir "" ck rp = (none, gst, []) := by
  unfold mmkvWithID
  rw [if_pos rfl]

/-! ## CRC check (C7) -/

/-- `Fixed32Size`: the 4-byte `actualSize` prefix of the data file. -/
def Fixed32Size : Nat := 4

/-- `MMKV::checkFileCRCValid(actualSize, crcDigest)`: with a non-null
mapping, recompute CRC32 (external, parameter `crc32`) over
`actualSize` bytes starting at offset `Fixed32Size`, store it in
`m_crcDigest` and compare; a null mapping returns `false` leaving
`m_crcDigest` unchanged.  Returns `(new m_crcDigest, result)`. -/
def checkFileCRCValid (crc32 : Nat → List Nat → Nat)
    (memory : Option (List Nat)) (m_crcDigest : Nat) (actualSize : Nat)
    (crcDigest : Nat) : Nat × Bool :=
  match memory with
  | some ptr =>
    let digest := crc32 0 ((ptr.drop Fixed32Size).take actualSize)
    (digest, decide (digest = crcDigest))
  | none => (m_crcDigest, false)

/-- C7: `checkFileCRCValid` recomputes the CRC over the `actualSize`
payload bytes at offsets `4 .. 4+actualSize−1` of the mapped file,
returns `true` iff the recomputed digest equals the expected one,
returns `false` on a null mapping, and stores the recomputed digest in
`m_crcDigest`. -/
theorem checkFileCRCValid_spec (crc32 : Nat → List Nat → Nat)
    (ptr : List Nat) (oldDigest actualSize expected : Nat)
    (hlen : Fixed32Size + actualSize ≤ ptr.length) :
    checkFileCRCValid crc32 none oldDigest actualSize expected = (oldDigest, false) ∧
    (checkFileCRCValid crc32 (some ptr) oldDigest actualSize expected).1 =
      crc32 0 ((ptr.drop Fixed32Size).take actualSize) ∧
    ((checkFileCRCValid crc32 (some ptr) oldDigest actualSize expected).2 = true ↔
      crc32 0 ((ptr.drop Fixed32Size).take actualSize) = expected) ∧
    ((ptr.drop Fixed32Size).take actualSize).length = actualSize := by
  refine ⟨rfl, rfl, by simp [checkFileCRCValid], ?_⟩
  rw [List.length_take, List.length_drop]
  unfold Fixed32Size at hlen ⊢
  omega

/-- Witness for C7 on an 8-byte file with `actualSize = 3`. -/
theorem checkFileCRCValid_spec_witness :
    checkFileCRCValid exCrc (some [9, 9, 9, 9, 1, 2, 3, 9]) 7 3 3 = (3, true) := by
  have h := checkFileCRCValid_spec exCrc [9, 9, 9, 9, 1, 2, 3, 9] 7 3 3 (by decide)
  have h2 := h.2.1
  have h3 := (h.2.2.1).mpr (by decide)
  cases hrw : checkFileCRCValid exCrc (some [9, 9, 9, 9, 1, 2, 3, 9]) 7 3 3 with
  | mk a b =>
    rw [hrw] at h2 h3
    simp only [] at h2 h3
    rw [h2, h3]
    rfl

/-! ## Error-handler dispatch (C10) -/

/-- `MMKVErrorType`. -/
inductive MMKVErrorType where
  | mmkvCRCCheckFail
  | mmkvFileLength
  deriving Repr, DecidableEq

/-- `MMKVRecoverStrategic`. -/
inductive MMKVRecoverStrategic where
  | onErrorDiscard
  | onErrorRecover
  deriving Repr, DecidableEq

/-- `onMMKVCRCCheckFail`: consult `g_errorHandler` (modelled as an
`Option`), defaulting to `OnErrorDiscard`. -/
def onMMKVCRCCheckFail
    (g_errorHandler : Option (String → MMKVErrorType → MMKVRecoverStrategic))
    (mmapID : String) : MMKVRecoverStrategic :=
  match g_errorHandler with
  | some handler => handler mmapID MMKVErrorType.mmkvCRCCheckFail
  | none => MMKVRecoverStrategic.onErrorDiscard

/-- `onMMKVFileLengthError`: likewise for the file-length error kind. -/
def onMMKVFileLengthError
    (g_errorHandler : Option (String → MMKVErrorType → MMKVRecoverStrategic))
    (mmapID : String) : MMKVRecoverStrategic :=
  match g_errorHandler with
  | some handler => handler mmapID MMKVErrorType.mmkvFileLength
  | none => MMKVRecoverStrategic.onErrorDiscard

/-- C10: with no registered error handler both policies resolve to
Discard; with a handler registered, its return value for the matching
error kind is used. -/
theorem error_handler_dispatch :
    (∀ mmapID, onMMKVCRCCheckFail none mmapID = MMKVRecoverStrategic.onErrorDiscard) ∧
    (∀ mmapID, onMMKVFileLengthError none mmapID = MMKVRecoverStrategic.onErrorDiscard) ∧
    (∀ handler mmapID, onMMKVCRCCheckFail (some handler) mmapID =
      handler mmapID MMKVErrorType.mmkvCRCCheckFail) ∧
    (∀ handler mmapID, onMMKVFileLengthError (some handler) mmapID =
      handler mmapID MMKVErrorType.mmkvFileLength) :=
  ⟨fun _ => rfl, fun _ => rfl, fun _ _ => rfl, fun _ _ => rfl⟩

end MMKVCore
